import Mathlib

/-!
Shallow embedding of the observation pipeline of the
Observability-System/agent-training repository
(src/policy-rl-agent/observability_handlers.py and
src/policy-rl-agent/observability_gateway_environment.py).

Python dicts are modelled as insertion-ordered association lists with
set-or-overwrite-in-place semantics; Python float arithmetic on the
transformer / aggregator / actuator is modelled exactly over the rationals;
the urgency scorer (which uses math.exp) is modelled generically over a
linear ordered field and instantiated at the reals with Real.exp.
Python exceptions are modelled with Except over an explicit error kind.
-/

/-- Association list with String keys, modelling a Python dict
(insertion order preserved, assignment overwrites in place). -/

abbrev AListQ (α : Type) := List (String × α)

/-- Python dict assignment d[k] = v: overwrite in place if present,
append at the end otherwise. -/

def aset {α : Type} : AListQ α → String → α → AListQ α
  | [], k, v => [(k, v)]
  | (k', v') :: t, k, v => if k' = k then (k, v) :: t else (k', v') :: aset t k v

/-- Python dict lookup d.get(k): first (and, for dicts, only) binding. -/

def alookup {α : Type} : AListQ α → String → Option α
  | [], _ => none
  | (k', v) :: t, k => if k' = k then some v else alookup t k

/-- Python d.get(k, default). -/

def mgetD {α : Type} (m : AListQ α) (k : String) (d : α) : α :=
  (alookup m k).getD d

/-- Keys of an association list. -/

def akeys {α : Type} (l : AListQ α) : List String := l.map Prod.fst

/-- Error kinds of the Python exceptions relevant to the pipeline.
ConfigurationError is the kind the spec requires for missing source
counts; the code never raises it. -/

inductive PyErr : Type
  | zeroDivisionError
  | keyError
  | configurationError
  | validationError
  deriving DecidableEq

/-- Decidable equality for Except values, used to evaluate the embedded
functions on concrete inputs. -/

instance {ε α : Type} [DecidableEq ε] [DecidableEq α] : DecidableEq (Except ε α) := fun a b =>
  match a, b with
  | .ok x, .ok y =>
      if h : x = y then .isTrue (by rw [h]) else .isFalse (by intro hc; cases hc; exact h rfl)
  | .error x, .error y =>
      if h : x = y then .isTrue (by rw [h]) else .isFalse (by intro hc; cases hc; exact h rfl)
  | .ok _, .error _ => .isFalse (by intro hc; cases hc)
  | .error _, .ok _ => .isFalse (by intro hc; cases hc)

/-- Sequential traversal in the Except monad (models a Python loop whose
body may raise: the first raise aborts the whole loop). -/

def mapME {α β : Type} (f : α → Except PyErr β) : List α → Except PyErr (List β)
  | [] => .ok []
  | x :: xs =>
      match f x with
      | .error e => .error e
      | .ok y =>
          match mapME f xs with
          | .error e => .error e
          | .ok ys => .ok (y :: ys)

/-! ### Label parsing (transform_observations.parse_key) -/

/-- Python str.split(sep) for a one-character separator: "a,,b" gives
three pieces, the empty string gives one empty piece. -/

def splitOnChar (c : Char) : List Char → List (List Char)
  | [] => [[]]
  | x :: xs =>
      let r := splitOnChar c xs
      if x = c then [] :: r
      else
        match r with
        | [] => [[x]]
        | y :: ys => (x :: y) :: ys

/-- Python part.split(sep, 1) for a one-character separator, returning
none when the separator does not occur (models the Python membership
test for the separator plus the two-way split). -/

def splitFirst (c : Char) : List Char → Option (List Char × List Char)
  | [] => none
  | x :: xs =>
      if x = c then some ([], xs)
      else
        match splitFirst c xs with
        | none => none
        | some (a, b) => some (x :: a, b)

/-- Python str.strip(): drop whitespace from both ends. -/

def trimChars (l : List Char) : String :=
  ⟨((l.dropWhile Char.isWhitespace).reverse.dropWhile Char.isWhitespace).reverse⟩

/-- One iteration of the parse_key loop: a segment without '=' is
silently skipped, otherwise split at the first '=', strip both halves
and assign into the dict (overwriting any earlier binding). -/

def parseSegment (d : AListQ String) (part : List Char) : AListQ String :=
  match splitFirst '=' part with
  | none => d
  | some (k, v) => aset d (trimChars k) (trimChars v)

/-- The dict built by the parse_key loop over a list of segments. -/

def buildLabelDict (parts : List (List Char)) : AListQ String :=
  parts.foldl parseSegment []

/-- transform_observations.parse_key: split the label on commas, fold the
segments into a dict, and read the class/pod/source keys. -/

def parse_key (key : String) : Option String × Option String × Option String :=
  let d := buildLabelDict (splitOnChar ',' key.data)
  (alookup d "class", alookup d "pod", alookup d "source")

/-! ### Observation Transformer (transform_observations) -/

/-- A value in the raw metrics response: either a label-keyed mapping or a
scalar (non-dict) value. -/

inductive RawValue : Type
  | labeled (m : AListQ ℚ)
  | scalar (v : ℚ)
  deriving DecidableEq

/-- The raw metrics response: metric-name to value, in insertion order. -/

abbrev RawResult := AListQ RawValue

/-- Per-source metric dict. -/

abbrev Metrics := AListQ ℚ

/-- The nested ObservationTree: class to pod to source to metric dict. -/

abbrev ObsTree := AListQ (AListQ (AListQ Metrics))

/-- Step-wise decidability instances so that concrete trees can be
compared by the kernel. -/

instance : DecidableEq Metrics := inferInstance

instance : DecidableEq (AListQ Metrics) := inferInstance

instance : DecidableEq (AListQ (AListQ Metrics)) := inferInstance

instance : DecidableEq ObsTree := inferInstance

/-- output[cls][pod][src][metric] = v on the auto-vivifying defaultdict. -/

def setLeaf (t : ObsTree) (c p s metric : String) (v : ℚ) : ObsTree :=
  let pods := mgetD t c []
  let srcs := mgetD pods p []
  let m := mgetD srcs s []
  aset t c (aset pods p (aset srcs s (aset m metric v)))

/-- Filing of one label/value pair of a labeled metric: entries whose
parsed (class, pod, source) triple has a None component leave the tree
unchanged. -/

def fileEntry (metric : String) (t : ObsTree) (kv : String × ℚ) : ObsTree :=
  match parse_key kv.1 with
  | (some c, some p, some s) => setLeaf t c p s metric kv.2
  | _ => t

/-- Filing of one metric of the raw response. -/

def fileMetric (t : ObsTree) (entry : String × RawValue) : ObsTree :=
  match entry.2 with
  | .labeled m => m.foldl (fileEntry entry.1) t
  | .scalar v => setLeaf t "global" "global" "global" entry.1 v

/-- First phase of transform_observations: fold the whole raw response
into the nested tree. -/

def fileAll (result : RawResult) : ObsTree :=
  result.foldl fileMetric []

/-- Capacity / source-count configuration handed to the transformer. -/

structure ObsConfig : Type where
  class_total_capacity : ℚ
  source_count_per_class : AListQ ℚ
  deriving DecidableEq

/-- Drop-SLO configuration: class to list of (source, budget) entries; a
budget of none models an entry whose budget does not parse as float. -/

abbrev DropSlo := AListQ (List (String × Option ℚ))

/-- Budget lookup for a (class, source): scan the class's entry list and
take the first entry for the source (the loop breaks on the first
match); a missing class, missing source or unparsable budget yields
none. -/

def findBudget (slo : DropSlo) (c s : String) : Option ℚ :=
  match alookup slo c with
  | none => none
  | some entries =>
      match entries.find? (fun e => e.1 = s) with
      | none => none
      | some e => e.2

/-- Second phase of transform_observations on one leaf: read the four
raw counters with default 0 and append the five derived metrics,
propagating the Python exceptions of the queue_ratio step: a missing
source count raises a lookup error and a zero source count or zero
per-source capacity raises ZeroDivisionError. -/

def addDerived (cfg : ObsConfig) (slo : DropSlo) (c s : String) (m : Metrics) :
    Except PyErr Metrics :=
  let q := mgetD m "queue_length" 0
  let f := mgetD m "forwarded_batches" 0
  let d := mgetD m "dropped_batches" 0
  let fresh := mgetD m "fresh_good_batches" 0
  let starve : ℚ := if 0 < q ∧ f < 1 then 1 else 0
  let m1 := aset m "starvation_flag" starve
  let total := f + d
  let dropVal : ℚ := if total = 0 then 0 else d / total
  let m2 := aset m1 "drop_ratio" dropVal
  let excess : ℚ :=
    match findBudget slo c s with
    | some b => max 0 (dropVal - b)
    | none => dropVal
  let m3 := aset m2 "drop_excess" excess
  let stale : ℚ := if f = 0 then 1 else 1 - fresh / f
  let m4 := aset m3 "staleness_ratio" stale
  match alookup cfg.source_count_per_class c with
  | none => .error .keyError
  | some n =>
      if n = 0 then .error .zeroDivisionError
      else
        let perSrc := cfg.class_total_capacity / n
        if perSrc = 0 then .error .zeroDivisionError
        else .ok (aset m4 "queue_ratio" (q / perSrc))

/-- Derived-metric pass over the sources of one pod. -/

def deriveSources (cfg : ObsConfig) (slo : DropSlo) (c : String)
    (srcs : AListQ Metrics) : Except PyErr (AListQ Metrics) :=
  mapME (fun sm => (addDerived cfg slo c sm.1 sm.2).map (fun m' => (sm.1, m'))) srcs

/-- Derived-metric pass over the pods of one class. -/

def derivePods (cfg : ObsConfig) (slo : DropSlo) (c : String)
    (pods : AListQ (AListQ Metrics)) : Except PyErr (AListQ (AListQ Metrics)) :=
  mapME (fun pp => (deriveSources cfg slo c pp.2).map (fun s' => (pp.1, s'))) pods

/-- transform_observations: file the raw response into the nested tree,
then compute the derived metrics for every leaf.  The Except models the
Python exceptions the derived pass can raise. -/

def transform_observations (result : RawResult) (cfg : ObsConfig)
    (slo : DropSlo) : Except PyErr ObsTree :=
  mapME (fun cp => (derivePods cfg slo cp.1 cp.2).map (fun p' => (cp.1, p')))
    (fileAll result)

/-! ### Class Aggregator (aggregate_class_metrics) -/

/-- Accumulator of the per-class aggregation loop: running sums, running
maxima (initialised at 0.0) and the leaf count. -/
structure StatAcc : Type where
  qSum : ℚ
  dSum : ℚ
  sSum : ℚ
  fSum : ℚ
  qMax : ℚ
  dMax : ℚ
  sMax : ℚ
  count : ℕ
  deriving DecidableEq

/-- The all-zero starting accumulator. -/
def statAcc0 : StatAcc := ⟨0, 0, 0, 0, 0, 0, 0, 0⟩

/-- One leaf of the aggregation loop: read the four derived metrics with
default 0, add to the sums, update the maxima (only when strictly
greater, which clamps each maximum below at its 0.0 start). -/
def leafStep (a : StatAcc) (m : Metrics) : StatAcc :=
  let qr := mgetD m "queue_ratio" 0
  let dr := mgetD m "drop_ratio" 0
  let sr := mgetD m "staleness_ratio" 0
  let sf := mgetD m "starvation_flag" 0
  { qSum := a.qSum + qr
    dSum := a.dSum + dr
    sSum := a.sSum + sr
    fSum := a.fSum + sf
    qMax := if qr > a.qMax then qr else a.qMax
    dMax := if dr > a.dMax then dr else a.dMax
    sMax := if sr > a.sMax then sr else a.sMax
    count := a.count + 1 }

/-- The leaves of a class, in pod-then-source iteration order. -/
def leavesOf (pods : AListQ (AListQ Metrics)) : List Metrics :=
  (pods.map (fun pp => pp.2.map Prod.snd)).flatten

/-- The seven-field summary dict of one class, in the construction order
of the Python dict literal. -/
def summarize (pods : AListQ (AListQ Metrics)) : AListQ ℚ :=
  let a := (leavesOf pods).foldl leafStep statAcc0
  let avgQ : ℚ := if a.count = 0 then 0 else a.qSum / a.count
  let avgD : ℚ := if a.count = 0 then 0 else a.dSum / a.count
  let avgS : ℚ := if a.count = 0 then 0 else a.sSum / a.count
  let avgF : ℚ := if a.count = 0 then 0 else a.fSum / a.count
  [("avg_queue_ratio", avgQ), ("avg_drop_ratio", avgD),
   ("avg_staleness_ratio", avgS), ("avg_starvation_flag", avgF),
   ("max_queue_ratio", a.qMax), ("max_drop_ratio", a.dMax),
   ("max_staleness_ratio", a.sMax)]

/-- Class extraction from a label of the secondary response: the first
comma-separated part that starts with "class=", its value being
everything after that first '=' (no stripping). -/
def classOfLabel (label : String) : Option String :=
  ((splitOnChar ',' label.data).find?
      (fun part => "class=".data.isPrefixOf part)).map
    (fun part => ⟨part.drop 6⟩)

/-- metric to class to value map extracted from one labeled value of the
secondary response. -/
def extractClassMap (m : AListQ ℚ) : AListQ ℚ :=
  m.foldl
    (fun acc kv =>
      match classOfLabel kv.1 with
      | some c => aset acc c kv.2
      | none => acc) []

/-- The metric to class-map table of the secondary raw response; a
non-dict (scalar) metric contributes an empty class map. -/
def metricClassMaps (extra : RawResult) : AListQ (AListQ ℚ) :=
  extra.foldl
    (fun acc nv =>
      match nv.2 with
      | .labeled m => aset acc nv.1 (extractClassMap m)
      | .scalar _ => aset acc nv.1 []) []

/-- Merge of one metric's class map into the result: for each class set
the metric field, creating the class entry (as an empty dict) first when
absent. -/
def mergeMap (res : AListQ (AListQ ℚ)) (mname : String) (cmap : AListQ ℚ) :
    AListQ (AListQ ℚ) :=
  cmap.foldl (fun r cv => aset r cv.1 (aset (mgetD r cv.1 []) mname cv.2)) res

/-- Merge of the whole metric-to-class-map table. -/
def mergeExtras (res : AListQ (AListQ ℚ)) (maps : AListQ (AListQ ℚ)) :
    AListQ (AListQ ℚ) :=
  maps.foldl (fun r mc => mergeMap r mc.1 mc.2) res

/-- aggregate_class_metrics: summarise each class of the tree, then merge
the class-level scalar metrics of the secondary response. -/
def aggregate_class_metrics (observations : ObsTree) (extraRaw : RawResult) :
    AListQ (AListQ ℚ) :=
  let base := observations.foldl (fun r cp => aset r cp.1 (summarize cp.2)) []
  mergeExtras base (metricClassMaps extraRaw)

/-- Spec-side description of the merge loop's effect on one class's
entry: starting from an existing entry, fold the metric table and set
the field of each metric that mentions the class (overwriting a field of
the same name, exactly as the Python assignment does). -/
def mergedOnto (e0 : AListQ ℚ) (maps : AListQ (AListQ ℚ)) (c : String) : AListQ ℚ :=
  maps.foldl
    (fun e mc =>
      match alookup mc.2 c with
      | some v => aset e mc.1 v
      | none => e) e0

/-- Spec-side description of the fields a class that appears only in the
secondary response receives: fold the metric table, keeping this class's
value of each metric that mentions it. -/
def mergedEntry (maps : AListQ (AListQ ℚ)) (c : String) : AListQ ℚ :=
  maps.foldl
    (fun e mc =>
      match alookup mc.2 c with
      | some v => aset e mc.1 v
      | none => e) []

/-! ### Urgency Scorer (compute_source_weights_per_class) -/

/-- Raw urgency score of one leaf: the importance-weighted linear
combination of staleness, drop and queue pressure, every lookup
defaulting to 0. -/
def rawScoreOf {α : Type} [LinearOrderedField α] (params : AListQ α)
    (m : AListQ α) : α :=
  mgetD params "staleness" 0 * mgetD m "staleness_ratio" 0 +
    mgetD params "batch_loss" 0 * mgetD m "drop_ratio" 0 +
    mgetD params "backlog" 0 * mgetD m "queue_ratio" 0

/-- Numerically-stable softmax of one pod's source scores: subtract the
maximum, exponentiate, normalise by the sum (a zero sum is replaced by
1); an empty source map yields the empty dict.  The exponential is a
parameter so the definition stays executable; the theorems instantiate
it with Real.exp. -/
def softmaxList {α : Type} [LinearOrderedField α] (e : α → α) :
    List (String × α) → List (String × α)
  | [] => []
  | x :: xs =>
      let m := (xs.map Prod.snd).foldl max x.2
      let exps := (x :: xs).map (fun sv => (sv.1, e (sv.2 - m)))
      let t := (exps.map Prod.snd).sum
      let s := if t = 0 then 1 else t
      exps.map (fun sv => (sv.1, sv.2 / s))

/-- compute_source_weights_per_class: validate that the importance
parameters sum to 1.0 within 1e-6, then score every leaf and softmax-
normalise within each (class, pod) group. -/
def computeSourceWeights {α : Type} [LinearOrderedField α] (e : α → α)
    (params : AListQ α)
    (tree : AListQ (AListQ (AListQ (AListQ α)))) :
    Except PyErr (AListQ (AListQ (AListQ α))) :=
  let total := (params.map Prod.snd).sum
  if |total - 1| > 1 / 1000000 then .error .validationError
  else
    .ok (tree.map (fun cp => (cp.1, cp.2.map (fun pp =>
      (pp.1, softmaxList e (pp.2.map (fun sm => (sm.1, rawScoreOf params sm.2))))))))

/-! ### Rate-Limit Actuator (apply_rate_limits) -/

/-- Python round() with no digits: round half to even, returning an
integer. -/
def pyRound (x : ℚ) : ℤ :=
  let f := ⌊x⌋
  let r := x - f
  if r < 1 / 2 then f
  else if 1 / 2 < r then f + 1
  else if f % 2 = 0 then f else f + 1

/-- The token-bucket patch body written per class. -/
structure TokenBucket : Type where
  maxTokens : ℤ
  tokensPerFill : ℤ
  fillInterval : String
  deriving DecidableEq

/-- apply_rate_limits: reject an empty mapping or weights whose sum is
off 1.0 by more than 1e-6 before any patch; otherwise compute
tokens = round(weight * int(max(0, total_rate))) per class and emit a
token bucket with maxTokens = tokensPerFill = tokens and a one-minute
fill interval, in input order. -/
def apply_rate_limits (request_rates : AListQ ℚ) (total_ingestion_rate : ℚ) :
    Except PyErr (AListQ TokenBucket) :=
  if request_rates = [] then .error .validationError
  else
    let total := (request_rates.map Prod.snd).sum
    if |total - 1| > 1 / 1000000 then .error .validationError
    else
      let tokensTotal : ℤ := ⌊max 0 total_ingestion_rate⌋
      .ok (request_rates.map (fun cw =>
        let tokens := pyRound ((tokensTotal : ℚ) * cw.2)
        (cw.1, ⟨tokens, tokens, "1m"⟩)))

/-! ### Spec-side per-leaf formulas, used to state the leaf properties -/

/-- The drop-ratio formula of one leaf, counters read with default 0. -/
def dropRatioOf (m : Metrics) : ℚ :=
  let f := mgetD m "forwarded_batches" 0
  let d := mgetD m "dropped_batches" 0
  if f + d = 0 then 0 else d / (f + d)

/-- The staleness formula of one leaf, counters read with default 0. -/
def staleOf (m : Metrics) : ℚ :=
  let f := mgetD m "forwarded_batches" 0
  if f = 0 then 1 else 1 - mgetD m "fresh_good_batches" 0 / f

/-- The drop-excess formula of one leaf: clamp against the configured
budget when one exists, otherwise drop ratio unchanged. -/
def excessOf (slo : DropSlo) (c s : String) (m : Metrics) : ℚ :=
  match findBudget slo c s with
  | some b => max 0 (dropRatioOf m - b)
  | none => dropRatioOf m

/-- Whether a transformer run ended in the ConfigurationError kind. -/
def isConfigError (r : Except PyErr ObsTree) : Bool :=
  match r with
  | .error .configurationError => true
  | _ => false

/-! ### Spec-side helpers for the parser and aggregator claims -/

/-- The well-formed (key, value) pairs of a segment list, stripped, in
order: exactly the assignments the parse_key loop performs. -/
def wfEntries (parts : List (List Char)) : AListQ String :=
  parts.filterMap
    (fun p => (splitFirst '=' p).map (fun kv => (trimChars kv.1, trimChars kv.2)))

/-- The value of the last entry with the given key, if any. -/
def lastValOf : AListQ String → String → Option String
  | [], _ => none
  | e :: rest, k =>
      match lastValOf rest k with
      | some v => some v
      | none => if e.1 = k then some e.2 else none

/-- The per-key leaf values of one class, in leaf order, lookups
defaulting to 0. -/
def leafVals (key : String) (pods : AListQ (AListQ Metrics)) : List ℚ :=
  (leavesOf pods).map (fun m => mgetD m key 0)

/-- The all-zero class summary. -/
def zeroSummary : AListQ ℚ :=
  [("avg_queue_ratio", 0), ("avg_drop_ratio", 0), ("avg_staleness_ratio", 0),
   ("avg_starvation_flag", 0), ("max_queue_ratio", 0), ("max_drop_ratio", 0),
   ("max_staleness_ratio", 0)]

/-- The effect of the merge loop on a single class entry, starting from
an optional existing entry. -/
def mergeInto (start : Option (AListQ ℚ)) (maps : AListQ (AListQ ℚ)) (c : String) :
    Option (AListQ ℚ) :=
  maps.foldl
    (fun acc mc =>
      match alookup mc.2 c with
      | some v => some (aset (acc.getD []) mc.1 v)
      | none => acc) start

/-- A one-leaf tree whose staleness value is negative. -/
def t9 : ObsTree := [("gold", [("p1", [("s1", [("staleness_ratio", -1)])])])]

/-! ### Concrete inputs used by the witnesses and counterexamples -/

/-- The raw response of the spec's end-to-end scenario. -/
def c5input : RawResult :=
  [("forwarded_batches", .labeled [("class=gold,pod=p1,source=s1", 10)]),
   ("dropped_batches", .labeled [("class=gold,pod=p1,source=s1", 5)]),
   ("fresh_good_batches", .labeled [("class=gold,pod=p1,source=s1", 2)]),
   ("queue_length", .labeled [("class=gold,pod=p1,source=s1", 3)])]

/-- Class capacity 100 with one source for gold. -/
def c5cfg : ObsConfig := ⟨100, [("gold", 1)]⟩

/-- The leaf metric dict the scenario produces, in write order. -/
def c5leaf : Metrics :=
  [("forwarded_batches", 10), ("dropped_batches", 5), ("fresh_good_batches", 2),
   ("queue_length", 3), ("starvation_flag", 0), ("drop_ratio", 1 / 3),
   ("drop_excess", 1 / 3), ("staleness_ratio", 4 / 5), ("queue_ratio", 3 / 100)]

/-- The tree the scenario produces. -/
def c5tree : ObsTree := [("gold", [("p1", [("s1", c5leaf)])])]

/-- A raw response with ten forwarded batches and no fresh ones. -/
def c3input : RawResult :=
  [("forwarded_batches", .labeled [("class=gold,pod=p1,source=s1", 10)]),
   ("fresh_good_batches", .labeled [("class=gold,pod=p1,source=s1", 0)])]

/-- A drop-SLO with budget 1/2 for (gold, s1). -/
def c10slo : DropSlo := [("gold", [("s1", some (1 / 2))])]

/-- The scenario leaf under the c10slo budget: the excess clamps to 0. -/
def c10leaf : Metrics :=
  [("forwarded_batches", 10), ("dropped_batches", 5), ("fresh_good_batches", 2),
   ("queue_length", 3), ("starvation_flag", 0), ("drop_ratio", 1 / 3),
   ("drop_excess", 0), ("staleness_ratio", 4 / 5), ("queue_ratio", 3 / 100)]

/-- The scenario tree under the c10slo budget. -/
def c10tree : ObsTree := [("gold", [("p1", [("s1", c10leaf)])])]

/-! ### Helper lemmas -/

theorem alookup_aset_self {α : Type} (l : AListQ α) (k : String) (v : α) :
    alookup (aset l k v) k = some v := by
  induction l with
  | nil => simp [aset, alookup]
  | cons h t ih =>
      by_cases hk : h.1 = k
      · simp [aset, hk, alookup]
      · simp [aset, hk, alookup, ih]

theorem alookup_aset_ne {α : Type} (l : AListQ α) (k k' : String) (v : α)
    (h : k ≠ k') : alookup (aset l k v) k' = alookup l k' := by
  induction l with
  | nil => simp [aset, alookup, h]
  | cons hd t ih =>
      by_cases hk : hd.1 = k
      · subst hk
        simp [aset, alookup, h]
      · simp [aset, hk, alookup, ih]

theorem mem_akeys_aset {α : Type} (l : AListQ α) (k k' : String) (v : α) :
    k' ∈ akeys (aset l k v) ↔ k' ∈ akeys l ∨ k' = k := by
  induction l with
  | nil => simp [aset, akeys, eq_comm]
  | cons hd t ih =>
      by_cases hk : hd.1 = k
      · subst hk
        simp only [aset, if_pos rfl, if_true, eq_self_iff_true, akeys, List.map_cons,
          List.mem_cons]
        tauto
      · simp only [aset, hk, if_false, akeys, List.map_cons, List.mem_cons]
        rw [show (k' ∈ List.map Prod.fst (aset t k v)) = (k' ∈ akeys (aset t k v)) from rfl, ih]
        simp only [akeys]
        tauto

theorem akeys_aset_nodup {α : Type} (l : AListQ α) (k : String) (v : α)
    (h : (akeys l).Nodup) : (akeys (aset l k v)).Nodup := by
  induction l with
  | nil => simp [aset, akeys]
  | cons hd t ih =>
      by_cases hk : hd.1 = k
      · subst hk
        simpa [aset, akeys] using h
      · simp only [akeys, List.map_cons, List.nodup_cons] at h
        have h2 := ih h.2
        simp only [aset, hk, if_false, akeys, List.map_cons, List.nodup_cons]
        refine ⟨?_, h2⟩
        intro hm
        rcases (mem_akeys_aset t k hd.1 v).mp (by simpa [akeys] using hm) with hh | hh
        · exact h.1 (by simpa [akeys] using hh)
        · exact hk hh

theorem alookup_eq_none_of_not_mem_akeys {α : Type} (l : AListQ α) (k : String)
    (h : k ∉ akeys l) : alookup l k = none := by
  induction l with
  | nil => simp [alookup]
  | cons hd t ih =>
      simp only [akeys, List.map_cons, List.mem_cons, not_or] at h
      have : hd.1 ≠ k := fun hh => h.1 hh.symm
      simp [alookup, this, ih (by simpa [akeys] using h.2)]

theorem mapME_ok_mem {α β : Type} (f : α → Except PyErr β) (l : List α)
    (l' : List β) (h : mapME f l = .ok l') :
    ∀ y ∈ l', ∃ x ∈ l, f x = .ok y := by
  induction l generalizing l' with
  | nil =>
      simp only [mapME] at h
      cases h
      intro y hy
      simp at hy
  | cons x xs ih =>
      simp only [mapME] at h
      cases hfx : f x with
      | error e => rw [hfx] at h; cases h
      | ok y0 =>
          rw [hfx] at h
          cases hrest : mapME f xs with
          | error e => rw [hrest] at h; cases h
          | ok ys =>
              rw [hrest] at h
              cases h
              intro y hy
              rcases List.mem_cons.mp hy with hy | hy
              · exact ⟨x, List.mem_cons_self _ _, by rw [hfx, hy]⟩
              · rcases ih ys hrest y hy with ⟨x', hx', hfx'⟩
                exact ⟨x', List.mem_cons_of_mem _ hx', hfx'⟩

theorem mapME_error_exists {α β : Type} (f : α → Except PyErr β) (l : List α)
    (e : PyErr) (h : mapME f l = .error e) : ∃ x ∈ l, f x = .error e := by
  induction l with
  | nil => simp [mapME] at h
  | cons x xs ih =>
      simp only [mapME] at h
      cases hfx : f x with
      | error e' =>
          rw [hfx] at h
          cases h
          exact ⟨x, List.mem_cons_self _ _, hfx⟩
      | ok y0 =>
          rw [hfx] at h
          cases hrest : mapME f xs with
          | error e' =>
              rw [hrest] at h
              cases h
              rcases ih hrest with ⟨x', hx', hfx'⟩
              exact ⟨x', List.mem_cons_of_mem _ hx', hfx'⟩
          | ok ys => rw [hrest] at h; cases h

theorem exceptMap_error {α β : Type} (g : α → β) (x : Except PyErr α) (e : PyErr)
    (h : Except.map g x = .error e) : x = .error e := by
  cases x with
  | ok a => simp [Except.map] at h
  | error e' => simpa [Except.map] using h

theorem exceptMap_ok {α β : Type} (g : α → β) (x : Except PyErr α) (y : β)
    (h : Except.map g x = .ok y) : ∃ a, x = .ok a ∧ g a = y := by
  cases x with
  | ok a =>
      refine ⟨a, rfl, ?_⟩
      simpa [Except.map] using h
  | error e' => simp [Except.map] at h

theorem addDerived_ok_lookups (cfg : ObsConfig) (slo : DropSlo) (c s : String)
    (m m' : Metrics) (h : addDerived cfg slo c s m = .ok m') :
    alookup m' "drop_ratio" = some (dropRatioOf m) ∧
    alookup m' "staleness_ratio" = some (staleOf m) ∧
    alookup m' "drop_excess" = some (excessOf slo c s m) ∧
    (∃ pc : ℚ, alookup m' "queue_ratio" = some (mgetD m "queue_length" 0 / pc)) ∧
    alookup m' "forwarded_batches" = alookup m "forwarded_batches" ∧
    alookup m' "dropped_batches" = alookup m "dropped_batches" ∧
    alookup m' "fresh_good_batches" = alookup m "fresh_good_batches" ∧
    alookup m' "queue_length" = alookup m "queue_length" := by
  unfold addDerived at h
  cases hn : alookup cfg.source_count_per_class c with
  | none => rw [hn] at h; cases h
  | some n =>
      rw [hn] at h
      simp only [] at h
      by_cases hn0 : n = 0
      · rw [if_pos hn0] at h; cases h
      · rw [if_neg hn0] at h
        by_cases hp : cfg.class_total_capacity / n = 0
        · rw [if_pos hp] at h; cases h
        · rw [if_neg hp] at h
          injection h with h
          subst h
          refine ⟨?_, ?_, ?_, ⟨cfg.class_total_capacity / n, ?_⟩, ?_, ?_, ?_, ?_⟩
          · rw [alookup_aset_ne _ _ _ _ (by decide), alookup_aset_ne _ _ _ _ (by decide),
              alookup_aset_ne _ _ _ _ (by decide), alookup_aset_self]
            rfl
          · rw [alookup_aset_ne _ _ _ _ (by decide), alookup_aset_self]
            rfl
          · rw [alookup_aset_ne _ _ _ _ (by decide), alookup_aset_ne _ _ _ _ (by decide),
              alookup_aset_self]
            simp only [excessOf, dropRatioOf]
          · rw [alookup_aset_self]
          · rw [alookup_aset_ne _ _ _ _ (by decide), alookup_aset_ne _ _ _ _ (by decide),
              alookup_aset_ne _ _ _ _ (by decide), alookup_aset_ne _ _ _ _ (by decide),
              alookup_aset_ne _ _ _ _ (by decide)]
          · rw [alookup_aset_ne _ _ _ _ (by decide), alookup_aset_ne _ _ _ _ (by decide),
              alookup_aset_ne _ _ _ _ (by decide), alookup_aset_ne _ _ _ _ (by decide),
              alookup_aset_ne _ _ _ _ (by decide)]
          · rw [alookup_aset_ne _ _ _ _ (by decide), alookup_aset_ne _ _ _ _ (by decide),
              alookup_aset_ne _ _ _ _ (by decide), alookup_aset_ne _ _ _ _ (by decide),
              alookup_aset_ne _ _ _ _ (by decide)]
          · rw [alookup_aset_ne _ _ _ _ (by decide), alookup_aset_ne _ _ _ _ (by decide),
              alookup_aset_ne _ _ _ _ (by decide), alookup_aset_ne _ _ _ _ (by decide),
              alookup_aset_ne _ _ _ _ (by decide)]

theorem transform_leaf_exists (result : RawResult) (cfg : ObsConfig) (slo : DropSlo)
    (t : ObsTree) (ht : transform_observations result cfg slo = .ok t)
    (c : String) (pods : AListQ (AListQ Metrics)) (hc : (c, pods) ∈ t)
    (p : String) (srcs : AListQ Metrics) (hp : (p, srcs) ∈ pods)
    (s : String) (m : Metrics) (hs : (s, m) ∈ srcs) :
    ∃ m0 : Metrics, addDerived cfg slo c s m0 = .ok m := by
  rcases mapME_ok_mem _ _ _ ht _ hc with ⟨cp, _, hok⟩
  rcases exceptMap_ok _ _ _ hok with ⟨pods0, hdp, heq⟩
  injection heq with h1 h2
  subst h1
  subst h2
  rcases mapME_ok_mem _ _ _ hdp _ hp with ⟨pp, _, hok2⟩
  rcases exceptMap_ok _ _ _ hok2 with ⟨srcs0, hds, heq2⟩
  injection heq2 with h3 h4
  subst h3
  subst h4
  rcases mapME_ok_mem _ _ _ hds _ hs with ⟨sm, _, hok3⟩
  rcases exceptMap_ok _ _ _ hok3 with ⟨m0, had, heq3⟩
  injection heq3 with h5 h6
  subst h5
  subst h6
  exact ⟨sm.2, had⟩

theorem addDerived_ne_configError (cfg : ObsConfig) (slo : DropSlo) (c s : String)
    (m : Metrics) : addDerived cfg slo c s m ≠ .error .configurationError := by
  unfold addDerived
  cases hn : alookup cfg.source_count_per_class c with
  | none => intro h; cases h
  | some n =>
      simp only []
      by_cases hn0 : n = 0
      · rw [if_pos hn0]
        intro h; cases h
      · rw [if_neg hn0]
        by_cases hp : cfg.class_total_capacity / n = 0
        · rw [if_pos hp]
          intro h; cases h
        · rw [if_neg hp]
          intro h; cases h

/-! ### Claim C1 -/

/-- C1 (counterexample): with one gold leaf and a source count of 0 for
gold, transform_observations raises the runtime division fault
ZeroDivisionError -- precisely the exception kind the claim says cannot
occur -- and not a ConfigurationError. -/
theorem c1_zero_sources_division_fault :
    transform_observations
        [("queue_length", .labeled [("class=gold,pod=p1,source=s1", 3)])]
        ⟨100, [("gold", 0)]⟩ [] = .error .zeroDivisionError ∧
      PyErr.zeroDivisionError ≠ PyErr.configurationError := by
  constructor
  · decide
  · decide

/-- C1 (amended): transform_observations never fails with a
ConfigurationError, whatever the raw response, capacity/source-count
configuration and drop-SLO configuration: the only exceptions the
queue_ratio step can raise are the lookup error for an unknown class and
the ZeroDivisionError division fault for a zero source count or zero
per-source capacity. -/
theorem c1_never_configuration_error (result : RawResult) (cfg : ObsConfig)
    (slo : DropSlo) :
    isConfigError (transform_observations result cfg slo) = false := by
  cases ht : transform_observations result cfg slo with
  | ok t => rfl
  | error e =>
      unfold transform_observations at ht
      rcases mapME_error_exists _ _ _ ht with ⟨cp, _, h1⟩
      rcases exceptMap_error _ _ _ h1 with h2
      rcases mapME_error_exists _ _ _ h2 with ⟨pp, _, h3⟩
      rcases exceptMap_error _ _ _ h3 with h4
      rcases mapME_error_exists _ _ _ h4 with ⟨sm, _, h5⟩
      rcases exceptMap_error _ _ _ h5 with h6
      cases e with
      | configurationError => exact absurd h6 (addDerived_ne_configError _ _ _ _ _)
      | zeroDivisionError => rfl
      | keyError => rfl
      | validationError => rfl

theorem dropRatioOf_bounds (m : Metrics) (hf : 0 ≤ mgetD m "forwarded_batches" 0)
    (hd : 0 ≤ mgetD m "dropped_batches" 0) :
    0 ≤ dropRatioOf m ∧ dropRatioOf m ≤ 1 := by
  unfold dropRatioOf
  by_cases h : mgetD m "forwarded_batches" 0 + mgetD m "dropped_batches" 0 = 0
  · rw [if_pos h]
    norm_num
  · rw [if_neg h]
    have hpos : 0 < mgetD m "forwarded_batches" 0 + mgetD m "dropped_batches" 0 :=
      lt_of_le_of_ne (add_nonneg hf hd) (Ne.symm h)
    constructor
    · exact div_nonneg hd (le_of_lt hpos)
    · rw [div_le_one hpos]
      linarith

theorem staleOf_facts (m : Metrics) (hf : 0 ≤ mgetD m "forwarded_batches" 0)
    (hfr : 0 ≤ mgetD m "fresh_good_batches" 0) :
    staleOf m ≤ 1 ∧
      (staleOf m = 1 ↔
        mgetD m "forwarded_batches" 0 = 0 ∨ mgetD m "fresh_good_batches" 0 = 0) := by
  unfold staleOf
  by_cases h : mgetD m "forwarded_batches" 0 = 0
  · rw [if_pos h]
    simp [h]
  · rw [if_neg h]
    have hfpos : 0 < mgetD m "forwarded_batches" 0 := lt_of_le_of_ne hf (Ne.symm h)
    constructor
    · have hq : 0 ≤ mgetD m "fresh_good_batches" 0 / mgetD m "forwarded_batches" 0 :=
        div_nonneg hfr hf
      linarith
    · rw [sub_eq_self, div_eq_zero_iff]
      constructor
      · rintro (h1 | h1)
        · exact Or.inr h1
        · exact absurd h1 h
      · rintro (h1 | h1)
        · exact absurd h1 h
        · exact Or.inl h1

theorem mgetD_congr_of_alookup_eq {α : Type} (m m' : AListQ α) (k : String) (d : α)
    (h : alookup m' k = alookup m k) : mgetD m' k d = mgetD m k d := by
  unfold mgetD
  rw [h]

/-! ### Claim C2 -/

/-- C2 (counterexample): the label "pod=p1,source=s1" parses with a None
class, and transforming a response whose only metric carries that label
yields the empty tree: the value 5 is dropped, not filed under the
global/global/global sentinel group. -/
theorem c2_unattributed_entry_dropped :
    (parse_key "pod=p1,source=s1").1 = none ∧
      transform_observations [("m", .labeled [("pod=p1,source=s1", 5)])] c5cfg [] =
        .ok [] := by
  constructor
  · decide
  · decide

/-- C2 (amended): a labeled metric entry whose parsed triple has a None
component leaves the tree unchanged (the entry is dropped), while a
non-dict scalar metric value is the one filed under the sentinel group
tree["global"]["global"]["global"]. -/
theorem c2_none_component_drops_scalar_goes_global :
    (∀ (metric : String) (t : ObsTree) (k : String) (v : ℚ),
        (parse_key k).1 = none ∨ (parse_key k).2.1 = none ∨ (parse_key k).2.2 = none →
        fileEntry metric t (k, v) = t) ∧
      ∀ (t : ObsTree) (name : String) (v : ℚ),
        ∃ pods srcs mg,
          alookup (fileMetric t (name, .scalar v)) "global" = some pods ∧
            alookup pods "global" = some srcs ∧
            alookup srcs "global" = some mg ∧
            alookup mg name = some v := by
  constructor
  · intro metric t k v hnone
    unfold fileEntry
    rcases hpk : parse_key k with ⟨oc, op, os⟩
    rw [hpk] at hnone
    simp only [] at hnone
    cases oc with
    | none => rfl
    | some c =>
        cases op with
        | none => rfl
        | some p =>
            cases os with
            | none => rfl
            | some s =>
                rcases hnone with h | h | h <;> cases h
  · intro t name v
    exact ⟨_, _, _, alookup_aset_self _ _ _, alookup_aset_self _ _ _,
      alookup_aset_self _ _ _, alookup_aset_self _ _ _⟩

/-- C2 (witness): the dropped-entry case evaluated at the counterexample
label on the empty tree. -/
theorem c2_witness :
    fileEntry "m" [] ("pod=p1,source=s1", 5) = [] :=
  c2_none_component_drops_scalar_goes_global.1 "m" [] "pod=p1,source=s1" 5
    (Or.inl (by decide))

/-! ### Claim C3 -/

/-- C3 (counterexample): with ten forwarded batches and zero fresh ones,
the produced leaf has staleness_ratio = 1.0 although forwarded_batches =
10 is nonzero, so staleness_ratio = 1.0 does not hold only when
forwarded_batches = 0. -/
theorem c3_stale_one_with_forwarded_nonzero :
    transform_observations c3input c5cfg [] =
        .ok [("gold", [("p1", [("s1",
          [("forwarded_batches", 10), ("fresh_good_batches", 0),
           ("starvation_flag", 0), ("drop_ratio", 0), ("drop_excess", 0),
           ("staleness_ratio", 1), ("queue_ratio", 0)])])])] ∧
      (10 : ℚ) ≠ 0 := by
  constructor
  · norm_num +decide [c3input, c5cfg, transform_observations, fileAll, fileMetric,
      fileEntry, parse_key, buildLabelDict, parseSegment, splitOnChar, splitFirst,
      trimChars, aset, alookup, mgetD, setLeaf, mapME, Except.map, addDerived,
      deriveSources, derivePods, findBudget]
  · norm_num

/-- C3 (amended): every leaf of a successful transform_observations run
whose raw counters are non-negative has drop_ratio in [0, 1] and
staleness_ratio at most 1.0, and staleness_ratio equals 1.0 exactly when
forwarded_batches = 0 or fresh_good_batches = 0 (nothing forwarded, or
nothing fresh among the forwarded). -/
theorem c3_leaf_bounds (result : RawResult) (cfg : ObsConfig) (slo : DropSlo)
    (t : ObsTree) (ht : transform_observations result cfg slo = .ok t)
    (c : String) (pods : AListQ (AListQ Metrics)) (hc : (c, pods) ∈ t)
    (p : String) (srcs : AListQ Metrics) (hp : (p, srcs) ∈ pods)
    (s : String) (m : Metrics) (hs : (s, m) ∈ srcs)
    (hf : 0 ≤ mgetD m "forwarded_batches" 0)
    (hd : 0 ≤ mgetD m "dropped_batches" 0)
    (hfr : 0 ≤ mgetD m "fresh_good_batches" 0) :
    (∃ dr, alookup m "drop_ratio" = some dr ∧ 0 ≤ dr ∧ dr ≤ 1) ∧
      ∃ sr, alookup m "staleness_ratio" = some sr ∧ sr ≤ 1 ∧
        (sr = 1 ↔
          mgetD m "forwarded_batches" 0 = 0 ∨ mgetD m "fresh_good_batches" 0 = 0) := by
  rcases transform_leaf_exists result cfg slo t ht c pods hc p srcs hp s m hs with ⟨m0, h0⟩
  rcases addDerived_ok_lookups cfg slo c s m0 m h0 with
    ⟨hdr, hsr, _, _, hlf, hld, hlfr, _⟩
  have ef : mgetD m "forwarded_batches" 0 = mgetD m0 "forwarded_batches" 0 :=
    mgetD_congr_of_alookup_eq _ _ _ _ hlf
  have ed : mgetD m "dropped_batches" 0 = mgetD m0 "dropped_batches" 0 :=
    mgetD_congr_of_alookup_eq _ _ _ _ hld
  have efr : mgetD m "fresh_good_batches" 0 = mgetD m0 "fresh_good_batches" 0 :=
    mgetD_congr_of_alookup_eq _ _ _ _ hlfr
  rw [ef] at hf
  rw [ed] at hd
  rw [efr] at hfr
  constructor
  · rcases dropRatioOf_bounds m0 hf hd with ⟨h1, h2⟩
    exact ⟨dropRatioOf m0, hdr, h1, h2⟩
  · rcases staleOf_facts m0 hf hfr with ⟨h1, h2⟩
    refine ⟨staleOf m0, hsr, h1, ?_⟩
    rw [ef, efr]
    exact h2

/-- C3 (witness): the amended bounds evaluated at the end-to-end
scenario leaf, where drop_ratio = 1/3 and staleness_ratio = 4/5. -/
theorem c3_witness :
    (∃ dr, alookup c5leaf "drop_ratio" = some dr ∧ 0 ≤ dr ∧ dr ≤ 1) ∧
      ∃ sr, alookup c5leaf "staleness_ratio" = some sr ∧ sr ≤ 1 ∧
        (sr = 1 ↔
          mgetD c5leaf "forwarded_batches" 0 = 0 ∨
            mgetD c5leaf "fresh_good_batches" 0 = 0) :=
  c3_leaf_bounds c5input c5cfg [] c5tree
    (by norm_num +decide [c5input, c5cfg, c5tree, c5leaf, transform_observations,
      fileAll, fileMetric, fileEntry, parse_key, buildLabelDict, parseSegment,
      splitOnChar, splitFirst, trimChars, aset, alookup, mgetD, setLeaf, mapME,
      Except.map, addDerived, deriveSources, derivePods, findBudget])
    "gold" [("p1", [("s1", c5leaf)])] (by simp [c5tree]) "p1" [("s1", c5leaf)]
    (List.mem_cons_self _ _) "s1" c5leaf (List.mem_cons_self _ _)
    (by norm_num +decide [c5leaf, mgetD, alookup])
    (by norm_num +decide [c5leaf, mgetD, alookup])
    (by norm_num +decide [c5leaf, mgetD, alookup])

/-! ### Claim C5 -/

/-- C5: the end-to-end scenario (class gold, pod p1, source s1 with
forwarded 10, dropped 5, fresh 2, queue 3, capacity 100, one source)
produces the leaf with drop_ratio = 5/15, staleness_ratio = 1 - 2/10,
queue_ratio = 3/100 and starvation_flag = 0; and every raw counter that
is missing from a leaf is treated as 0 by the derived formulas (a
missing queue_length gives queue_ratio 0, a missing dropped_batches
gives drop_ratio 0, a missing forwarded_batches or fresh_good_batches
gives staleness_ratio 1). -/
theorem c5_end_to_end :
    (transform_observations c5input c5cfg [] = .ok c5tree ∧
      alookup c5leaf "drop_ratio" = some (5 / 15) ∧
      alookup c5leaf "staleness_ratio" = some (1 - 2 / 10) ∧
      alookup c5leaf "queue_ratio" = some (3 / 100) ∧
      alookup c5leaf "starvation_flag" = some 0) ∧
    ∀ (cfg : ObsConfig) (slo : DropSlo) (c s : String) (m m' : Metrics),
      addDerived cfg slo c s m = .ok m' →
      (alookup m "queue_length" = none → alookup m' "queue_ratio" = some 0) ∧
      (alookup m "dropped_batches" = none → alookup m' "drop_ratio" = some 0) ∧
      (alookup m "forwarded_batches" = none → alookup m' "staleness_ratio" = some 1) ∧
      (alookup m "fresh_good_batches" = none → alookup m' "staleness_ratio" = some 1) := by
  constructor
  · constructor
    · norm_num +decide [c5input, c5cfg, c5tree, c5leaf, transform_observations,
        fileAll, fileMetric, fileEntry, parse_key, buildLabelDict, parseSegment,
        splitOnChar, splitFirst, trimChars, aset, alookup, mgetD, setLeaf, mapME,
        Except.map, addDerived, deriveSources, derivePods, findBudget]
    · refine ⟨?_, ?_, ?_, ?_⟩ <;> norm_num +decide [c5leaf, alookup]
  · intro cfg slo c s m m' h
    rcases addDerived_ok_lookups cfg slo c s m m' h with
      ⟨hdr, hsr, _, ⟨pc, hqr⟩, _, _, _, _⟩
    refine ⟨?_, ?_, ?_, ?_⟩
    · intro hq
      rw [hqr]
      unfold mgetD
      rw [hq]
      norm_num
    · intro hd
      rw [hdr]
      unfold dropRatioOf
      have : mgetD m "dropped_batches" 0 = 0 := by unfold mgetD; rw [hd]; rfl
      rw [this]
      by_cases hz : mgetD m "forwarded_batches" 0 + 0 = 0
      · rw [if_pos hz]
      · rw [if_neg hz]
        norm_num
    · intro hf
      rw [hsr]
      unfold staleOf
      have : mgetD m "forwarded_batches" 0 = 0 := by unfold mgetD; rw [hf]; rfl
      rw [this]
      norm_num
    · intro hfr
      rw [hsr]
      unfold staleOf
      have : mgetD m "fresh_good_batches" 0 = 0 := by unfold mgetD; rw [hfr]; rfl
      rw [this]
      by_cases hz : mgetD m "forwarded_batches" 0 = 0
      · rw [if_pos hz]
      · rw [if_neg hz]
        norm_num

/-- C5 (witness): the defaulting part of the scenario claim at a
concrete leaf holding only forwarded_batches = 10: the missing
fresh_good_batches counter defaults to 0 and staleness_ratio is 1. -/
theorem c5_witness :
    alookup [("forwarded_batches", (10 : ℚ)), ("starvation_flag", 0),
        ("drop_ratio", 0), ("drop_excess", 0), ("staleness_ratio", 1),
        ("queue_ratio", 0)] "staleness_ratio" = some 1 :=
  ((c5_end_to_end.2 c5cfg [] "gold" "s1" [("forwarded_batches", 10)] _
      (by norm_num +decide [c5cfg, addDerived, aset, alookup, mgetD,
        findBudget])).2.2.2)
    (by decide)

/-! ### Claim C10 -/

/-- C10: on every leaf of a successful transform_observations run with
non-negative forwarded/dropped counters, if a drop budget b >= 0 is
configured for the leaf's (class, source) then drop_excess <= drop_ratio
and drop_excess = 0 whenever drop_ratio <= b; and if no budget is
configured the stored drop_excess equals the stored drop_ratio. -/
theorem c10_drop_excess (result : RawResult) (cfg : ObsConfig) (slo : DropSlo)
    (t : ObsTree) (ht : transform_observations result cfg slo = .ok t)
    (c : String) (pods : AListQ (AListQ Metrics)) (hc : (c, pods) ∈ t)
    (p : String) (srcs : AListQ Metrics) (hp : (p, srcs) ∈ pods)
    (s : String) (m : Metrics) (hs : (s, m) ∈ srcs)
    (hf : 0 ≤ mgetD m "forwarded_batches" 0)
    (hd : 0 ≤ mgetD m "dropped_batches" 0) :
    (∀ b, findBudget slo c s = some b → 0 ≤ b →
      ∃ de dr, alookup m "drop_excess" = some de ∧
        alookup m "drop_ratio" = some dr ∧ de ≤ dr ∧ (dr ≤ b → de = 0)) ∧
      (findBudget slo c s = none →
        alookup m "drop_excess" = alookup m "drop_ratio") := by
  rcases transform_leaf_exists result cfg slo t ht c pods hc p srcs hp s m hs with ⟨m0, h0⟩
  rcases addDerived_ok_lookups cfg slo c s m0 m h0 with
    ⟨hdr, _, hde, _, hlf, hld, _, _⟩
  have ef : mgetD m "forwarded_batches" 0 = mgetD m0 "forwarded_batches" 0 :=
    mgetD_congr_of_alookup_eq _ _ _ _ hlf
  have ed : mgetD m "dropped_batches" 0 = mgetD m0 "dropped_batches" 0 :=
    mgetD_congr_of_alookup_eq _ _ _ _ hld
  rw [ef] at hf
  rw [ed] at hd
  have hdr0 : 0 ≤ dropRatioOf m0 := (dropRatioOf_bounds m0 hf hd).1
  constructor
  · intro b hb hb0
    refine ⟨excessOf slo c s m0, dropRatioOf m0, hde, hdr, ?_, ?_⟩
    · unfold excessOf
      rw [hb]
      apply max_le
      · exact hdr0
      · linarith
    · intro hle
      unfold excessOf
      rw [hb]
      apply max_eq_left
      linarith
  · intro hb
    rw [hde, hdr]
    unfold excessOf
    rw [hb]

/-- C10 (witness): the scenario leaf under a configured gold/s1 budget
of 1/2: drop_ratio is 1/3 <= 1/2, so drop_excess is 0. -/
theorem c10_witness :
    (∀ b, findBudget c10slo "gold" "s1" = some b → 0 ≤ b →
      ∃ de dr, alookup c10leaf "drop_excess" = some de ∧
        alookup c10leaf "drop_ratio" = some dr ∧ de ≤ dr ∧ (dr ≤ b → de = 0)) ∧
      (findBudget c10slo "gold" "s1" = none →
        alookup c10leaf "drop_excess" = alookup c10leaf "drop_ratio") :=
  c10_drop_excess c5input c5cfg c10slo c10tree
    (by norm_num +decide [c5input, c5cfg, c10slo, c10tree, c10leaf,
      transform_observations, fileAll, fileMetric, fileEntry, parse_key,
      buildLabelDict, parseSegment, splitOnChar, splitFirst, trimChars, aset,
      alookup, mgetD, setLeaf, mapME, Except.map, addDerived, deriveSources,
      derivePods, findBudget])
    "gold" [("p1", [("s1", c10leaf)])] (by simp [c10tree]) "p1" [("s1", c10leaf)]
    (List.mem_cons_self _ _) "s1" c10leaf (List.mem_cons_self _ _)
    (by norm_num +decide [c10leaf, mgetD, alookup])
    (by norm_num +decide [c10leaf, mgetD, alookup])

theorem list_sum_div_eq (l : List ℝ) (s : ℝ) : (l.map (fun v => v / s)).sum = l.sum / s := by
  induction l with
  | nil => simp
  | cons x xs ih => simp [ih, add_div]

theorem list_sum_pos_of_mem (l : List ℝ) (hpos : ∀ v ∈ l, 0 < v) (hne : l ≠ []) :
    0 < l.sum := by
  cases l with
  | nil => exact absurd rfl hne
  | cons x xs =>
      have hx : 0 < x := hpos x (List.mem_cons_self _ _)
      have hxs : 0 ≤ xs.sum := by
        apply List.sum_nonneg
        intro v hv
        exact le_of_lt (hpos v (List.mem_cons_of_mem _ hv))
      simp only [List.sum_cons]
      linarith

theorem softmaxList_sum_one (l : List (String × ℝ)) (hl : l ≠ []) :
    ((softmaxList Real.exp l).map Prod.snd).sum = 1 := by
  cases l with
  | nil => exact absurd rfl hl
  | cons x xs =>
      show ((((x :: xs).map (fun sv =>
          (sv.1, Real.exp (sv.2 - (xs.map Prod.snd).foldl max x.2)))).map
            (fun sv => (sv.1, sv.2 / _))).map Prod.snd).sum = 1
      have hform :
          ∀ (es : List (String × ℝ)) (s : ℝ),
            ((es.map (fun sv => (sv.1, sv.2 / s))).map Prod.snd).sum =
              ((es.map Prod.snd).map (fun v => v / s)).sum := by
        intro es s
        simp [List.map_map, Function.comp_def]
      set m0 := (xs.map Prod.snd).foldl max x.2 with hm0
      set es := (x :: xs).map (fun sv => (sv.1, Real.exp (sv.2 - m0))) with hes
      have hpos : ∀ v ∈ es.map Prod.snd, 0 < v := by
        intro v hv
        simp only [hes, List.map_map, List.mem_map, Function.comp] at hv
        rcases hv with ⟨sv, _, hsv⟩
        rw [← hsv]
        exact Real.exp_pos _
      have hne2 : es.map Prod.snd ≠ [] := by simp [hes]
      have htpos : 0 < (es.map Prod.snd).sum := list_sum_pos_of_mem _ hpos hne2
      have ht0 : (es.map Prod.snd).sum ≠ 0 := ne_of_gt htpos
      rw [hform, if_neg ht0, list_sum_div_eq, div_self ht0]

/-! ### Claim C4 -/

/-- C4: whenever the importance parameters pass validation, the softmax-
normalised weights of every (class, pod) group with at least one source
sum to exactly 1 (the real-exponential model of the max-subtraction
softmax; in floating point this is the claimed 1.0 within tolerance,
independent of the scale of the raw scores), and a pod with an empty
source map yields the empty dict rather than an error. -/
theorem c4_softmax_sums_to_one (params : AListQ ℝ)
    (tree : AListQ (AListQ (AListQ (AListQ ℝ))))
    (hv : ¬(|(params.map Prod.snd).sum - 1| > 1 / 1000000))
    (c : String) (pods : AListQ (AListQ (AListQ ℝ))) (hc : (c, pods) ∈ tree)
    (p : String) (srcs : AListQ (AListQ ℝ)) (hp : (p, srcs) ∈ pods) :
    ∃ out pods' w,
      computeSourceWeights Real.exp params tree = .ok out ∧
        (c, pods') ∈ out ∧ (p, w) ∈ pods' ∧
        (srcs ≠ [] → (w.map Prod.snd).sum = 1) ∧ (srcs = [] → w = []) := by
  unfold computeSourceWeights
  rw [if_neg hv]
  refine ⟨_, _,
    softmaxList Real.exp (srcs.map (fun sm => (sm.1, rawScoreOf params sm.2))),
    rfl, List.mem_map_of_mem _ hc, List.mem_map_of_mem _ hp, ?_, ?_⟩
  · intro hne
    apply softmaxList_sum_one
    intro hmap
    exact hne (List.map_eq_nil_iff.mp hmap)
  · intro hempty
    rw [hempty]
    rfl

/-- C4 (witness): the theorem applied to a one-class, one-pod, one-source
tree with valid importance parameters. -/
theorem c4_witness :
    ∃ out pods' w,
      computeSourceWeights Real.exp
          [("staleness", (1 : ℝ) / 2), ("batch_loss", 3 / 10), ("backlog", 1 / 5)]
          [("gold", [("p1", [("s1", [])])])] = .ok out ∧
        ("gold", pods') ∈ out ∧ ("p1", w) ∈ pods' ∧
        ([("s1", ([] : AListQ ℝ))] ≠ [] → (w.map Prod.snd).sum = 1) ∧
        ([("s1", ([] : AListQ ℝ))] = [] → w = []) :=
  c4_softmax_sums_to_one
    [("staleness", (1 : ℝ) / 2), ("batch_loss", 3 / 10), ("backlog", 1 / 5)]
    [("gold", [("p1", [("s1", [])])])] (by norm_num)
    "gold" [("p1", [("s1", [])])] (List.mem_cons_self _ _)
    "p1" [("s1", [])] (List.mem_cons_self _ _)

/-! ### Claim C6 -/

/-- C6: any importance mapping whose values sum farther than 1e-6 from
1.0 makes the Urgency Scorer fail with the validation error before any
scoring (the Except result carries nothing else); in particular the
mapping staleness 0.5, batch_loss 0.3, backlog 0.2 passes validation
while staleness 0.5, batch_loss 0.3, backlog 0.3 fails. -/
theorem c6_importance_validation :
    (∀ (e : ℚ → ℚ) (params : AListQ ℚ)
        (tree : AListQ (AListQ (AListQ (AListQ ℚ)))),
        |(params.map Prod.snd).sum - 1| > 1 / 1000000 →
        computeSourceWeights e params tree = .error .validationError) ∧
      (computeSourceWeights id
          [("staleness", (1 : ℚ) / 2), ("batch_loss", 3 / 10), ("backlog", 1 / 5)]
          [] = .ok []) ∧
      computeSourceWeights id
          [("staleness", (1 : ℚ) / 2), ("batch_loss", 3 / 10), ("backlog", 3 / 10)]
          [] = .error .validationError := by
  refine ⟨?_, ?_, ?_⟩
  · intro e params tree h
    unfold computeSourceWeights
    rw [if_pos h]
  · unfold computeSourceWeights
    rw [if_neg (by norm_num)]
    rfl
  · unfold computeSourceWeights
    rw [if_pos (by norm_num [abs_of_pos])]

/-- C6 (witness): the validation branch applied to the failing mapping
of the claim. -/
theorem c6_witness :
    computeSourceWeights id
        [("staleness", (1 : ℚ) / 2), ("batch_loss", 3 / 10), ("backlog", 3 / 10)]
        ([] : AListQ (AListQ (AListQ (AListQ ℚ)))) = .error .validationError :=
  c6_importance_validation.1 id
    [("staleness", (1 : ℚ) / 2), ("batch_loss", 3 / 10), ("backlog", 3 / 10)]
    [] (by norm_num [abs_of_pos])

/-! ### Claim C7 -/

/-- C7: for a non-negative integer total ingestion rate (as configured,
1000), every class-weight mapping whose weights sum to 1.0 within 1e-6
yields one token bucket per class with
maxTokens = tokensPerFill = round(weight * total rate) (Python's
half-to-even round); a mapping whose weights are off by more than 1e-6
fails with the validation error before any patch is emitted; and the
gold/silver/bronze example with weights 1/2, 3/10, 1/5 and rate 1000
yields exactly 500, 300 and 200 tokens. -/
theorem c7_token_computation :
    (∀ (rates : AListQ ℚ) (rate : ℚ) (n : ℕ), rate = n →
        ¬(|(rates.map Prod.snd).sum - 1| > 1 / 1000000) →
        ∃ out, apply_rate_limits rates rate = .ok out ∧
          ∀ cw ∈ rates,
            (cw.1, (⟨pyRound (cw.2 * rate), pyRound (cw.2 * rate), "1m"⟩ :
              TokenBucket)) ∈ out) ∧
      (∀ (rates : AListQ ℚ) (rate : ℚ),
        |(rates.map Prod.snd).sum - 1| > 1 / 1000000 →
        apply_rate_limits rates rate = .error .validationError) ∧
      apply_rate_limits [("gold", 1 / 2), ("silver", 3 / 10), ("bronze", 1 / 5)]
          1000 =
        .ok [("gold", ⟨500, 500, "1m"⟩), ("silver", ⟨300, 300, "1m"⟩),
          ("bronze", ⟨200, 200, "1m"⟩)] := by
  refine ⟨?_, ?_, ?_⟩
  · intro rates rate n hn hv
    have hne : rates ≠ [] := by
      intro h
      rw [h] at hv
      simp at hv
      norm_num at hv
    unfold apply_rate_limits
    rw [if_neg hne, if_neg hv]
    have hcast : ((⌊max 0 rate⌋ : ℤ) : ℚ) = rate := by
      rw [hn]
      rw [max_eq_right (by positivity : (0 : ℚ) ≤ (n : ℚ))]
      rw [Int.floor_natCast]
      norm_num
    refine ⟨_, rfl, ?_⟩
    intro cw hcw
    have himg := List.mem_map_of_mem
      (fun cw : String × ℚ =>
        (cw.1, (⟨pyRound ((⌊max 0 rate⌋ : ℚ) * cw.2),
          pyRound ((⌊max 0 rate⌋ : ℚ) * cw.2), "1m"⟩ : TokenBucket))) hcw
    simpa [hcast, mul_comm] using himg
  · intro rates rate hv
    unfold apply_rate_limits
    by_cases hne : rates = []
    · rw [if_pos hne]
    · rw [if_neg hne, if_pos hv]
  · unfold apply_rate_limits
    rw [if_neg (by decide), if_neg (by norm_num)]
    have h1000 : (⌊max (0 : ℚ) 1000⌋ : ℚ) = 1000 := by
      rw [max_eq_right (by norm_num : (0 : ℚ) ≤ 1000)]
      norm_num
    simp only [List.map_cons, List.map_nil, h1000]
    norm_num [pyRound]

/-- C7 (witness): the valid-weights branch applied to the gold/silver/
bronze example at rate 1000. -/
theorem c7_witness :
    ∃ out, apply_rate_limits
        [("gold", (1 : ℚ) / 2), ("silver", 3 / 10), ("bronze", 1 / 5)] 1000 =
        .ok out ∧
      ∀ cw ∈ [("gold", (1 : ℚ) / 2), ("silver", 3 / 10), ("bronze", 1 / 5)],
        (cw.1, (⟨pyRound (cw.2 * 1000), pyRound (cw.2 * 1000), "1m"⟩ :
          TokenBucket)) ∈ out :=
  c7_token_computation.1 [("gold", 1 / 2), ("silver", 3 / 10), ("bronze", 1 / 5)]
    1000 1000 (by norm_num) (by norm_num)

theorem alookup_aset {α : Type} (l : AListQ α) (k0 : String) (v : α) (k : String) :
    alookup (aset l k0 v) k = if k0 = k then some v else alookup l k := by
  by_cases h : k0 = k
  · rw [if_pos h, h, alookup_aset_self]
  · rw [if_neg h, alookup_aset_ne _ _ _ _ h]

theorem buildLabelDict_char (parts : List (List Char)) (acc : AListQ String)
    (k : String) :
    alookup (parts.foldl parseSegment acc) k =
      match lastValOf (wfEntries parts) k with
      | some v => some v
      | none => alookup acc k := by
  induction parts generalizing acc with
  | nil => rfl
  | cons p rest ih =>
      rw [List.foldl_cons]
      rw [ih (parseSegment acc p)]
      cases hsp : splitFirst '=' p with
      | none =>
          have h1 : wfEntries (p :: rest) = wfEntries rest := by
            unfold wfEntries
            rw [List.filterMap_cons, hsp]
            rfl
          have h2 : parseSegment acc p = acc := by
            unfold parseSegment
            rw [hsp]
          rw [h1, h2]
      | some kv =>
          have h1 : wfEntries (p :: rest) =
              (trimChars kv.1, trimChars kv.2) :: wfEntries rest := by
            unfold wfEntries
            rw [List.filterMap_cons, hsp]
            rfl
          have h2 : parseSegment acc p = aset acc (trimChars kv.1) (trimChars kv.2) := by
            unfold parseSegment
            rw [hsp]
          rw [h1, h2]
          show _ = match
              match lastValOf (wfEntries rest) k with
              | some v => some v
              | none =>
                  if (trimChars kv.1, trimChars kv.2).1 = k
                  then some (trimChars kv.1, trimChars kv.2).2 else none
            with
            | some v => some v
            | none => alookup acc k
          cases lastValOf (wfEntries rest) k with
          | some v => rfl
          | none =>
              show alookup (aset acc (trimChars kv.1) (trimChars kv.2)) k = _
              rw [alookup_aset]
              by_cases hk : trimChars kv.1 = k
              · rw [if_pos hk]
                simp [hk]
              · rw [if_neg hk]
                simp [hk]

theorem lastValOf_eq_none (es : AListQ String) (k : String)
    (h : ∀ e ∈ es, e.1 ≠ k) : lastValOf es k = none := by
  induction es with
  | nil => rfl
  | cons e rest ih =>
      unfold lastValOf
      rw [ih (fun x hx => h x (List.mem_cons_of_mem _ hx))]
      rw [if_neg (h e (List.mem_cons_self _ _))]

theorem lastValOf_append_singleton (es : AListQ String) (k : String) (v : String) :
    lastValOf (es ++ [(k, v)]) k = some v := by
  induction es with
  | nil => simp [lastValOf]
  | cons e rest ih =>
      show lastValOf (e :: (rest ++ [(k, v)])) k = some v
      unfold lastValOf
      rw [ih]

theorem lastValOf_mem (es : AListQ String) (k v : String)
    (h : lastValOf es k = some v) : (k, v) ∈ es := by
  induction es with
  | nil => cases h
  | cons e rest ih =>
      unfold lastValOf at h
      cases hr : lastValOf rest k with
      | some v' =>
          rw [hr] at h
          cases h
          exact List.mem_cons_of_mem _ (ih hr)
      | none =>
          rw [hr] at h
          by_cases hk : e.1 = k
          · rw [if_pos hk] at h
            cases h
            have : e = (k, e.2) := by
              rw [← hk]
            rw [this]
            exact List.mem_cons_self _ _
          · rw [if_neg hk] at h
            cases h

theorem lastValOf_isSome_of_mem (es : AListQ String) (k v : String)
    (h : (k, v) ∈ es) : ∃ v', lastValOf es k = some v' := by
  induction es with
  | nil => cases h
  | cons e rest ih =>
      unfold lastValOf
      cases hr : lastValOf rest k with
      | some v' => exact ⟨v', rfl⟩
      | none =>
          rcases List.mem_cons.mp h with he | he
          · have : e.1 = k := by rw [← he]
            rw [if_pos this]
            exact ⟨e.2, rfl⟩
          · rcases ih he with ⟨v', hv'⟩
            rw [hv'] at hr
            cases hr

theorem mem_val_unique (es : AListQ String) (k v v' : String)
    (hnd : (akeys es).Nodup) (h1 : (k, v) ∈ es) (h2 : (k, v') ∈ es) : v = v' := by
  induction es with
  | nil => cases h1
  | cons e rest ih =>
      simp only [akeys, List.map_cons, List.nodup_cons] at hnd
      rcases List.mem_cons.mp h1 with he1 | he1 <;> rcases List.mem_cons.mp h2 with he2 | he2
      · rw [← he2] at he1
        injection he1 with ha hb
      · exfalso
        apply hnd.1
        have hk2 : k ∈ List.map Prod.fst rest := List.mem_map_of_mem Prod.fst he2
        have he : e.1 = k := by rw [← he1]
        rw [he]
        exact hk2
      · exfalso
        apply hnd.1
        have hk2 : k ∈ List.map Prod.fst rest := List.mem_map_of_mem Prod.fst he1
        have he : e.1 = k := by rw [← he2]
        rw [he]
        exact hk2
      · exact ih hnd.2 he1 he2

theorem lastValOf_eq_iff_mem (es : AListQ String) (k v : String)
    (hnd : (akeys es).Nodup) : lastValOf es k = some v ↔ (k, v) ∈ es := by
  constructor
  · exact lastValOf_mem es k v
  · intro h
    rcases lastValOf_isSome_of_mem es k v h with ⟨v', hv'⟩
    have := lastValOf_mem es k v' hv'
    rw [mem_val_unique es k v v' hnd h this]
    exact hv'

/-! ### Claim C8 -/

/-- C8: the Label Parser is total and never fails; a segment without '='
leaves the dict unchanged (it is silently skipped, as in
"class=gold,bad,source=src1" parsing to ("gold", None, "src1")); a key
with no well-formed segment yields None; appending a well-formed segment
makes its (stripped) value win over any earlier occurrence of the key
(last occurrence wins); and permuting the segments of a label whose
well-formed keys are distinct does not change any lookup. -/
theorem c8_label_parsing :
    parse_key "class=gold,bad,source=src1" = (some "gold", none, some "src1") ∧
      (∀ (pre post : List (List Char)) (bad : List Char),
        splitFirst '=' bad = none →
        buildLabelDict (pre ++ bad :: post) = buildLabelDict (pre ++ post)) ∧
      (∀ (parts : List (List Char)) (k : String),
        (∀ e ∈ wfEntries parts, e.1 ≠ k) →
        alookup (buildLabelDict parts) k = none) ∧
      (∀ (parts : List (List Char)) (p : List Char) (kv : List Char × List Char),
        splitFirst '=' p = some kv →
        alookup (buildLabelDict (parts ++ [p])) (trimChars kv.1) =
          some (trimChars kv.2)) ∧
      ∀ (parts1 parts2 : List (List Char)) (k : String),
        parts1.Perm parts2 → (akeys (wfEntries parts1)).Nodup →
        alookup (buildLabelDict parts1) k = alookup (buildLabelDict parts2) k := by
  refine ⟨by decide, ?_, ?_, ?_, ?_⟩
  · intro pre post bad hbad
    unfold buildLabelDict
    rw [List.foldl_append, List.foldl_append, List.foldl_cons]
    have : parseSegment (pre.foldl parseSegment []) bad = pre.foldl parseSegment [] := by
      unfold parseSegment
      rw [hbad]
    rw [this]
  · intro parts k hk
    unfold buildLabelDict
    rw [buildLabelDict_char]
    rw [lastValOf_eq_none _ _ hk]
    rfl
  · intro parts p kv hsp
    unfold buildLabelDict
    rw [buildLabelDict_char]
    have hwf : wfEntries (parts ++ [p]) =
        wfEntries parts ++ [(trimChars kv.1, trimChars kv.2)] := by
      unfold wfEntries
      rw [List.filterMap_append]
      congr 1
      rw [List.filterMap_cons, hsp]
      rfl
    rw [hwf, lastValOf_append_singleton]
  · intro parts1 parts2 k hperm hnd
    have hpe : (wfEntries parts1).Perm (wfEntries parts2) := List.Perm.filterMap _ hperm
    have hnd2 : (akeys (wfEntries parts2)).Nodup :=
      ((hpe.map Prod.fst).nodup_iff).mp hnd
    unfold buildLabelDict
    rw [buildLabelDict_char, buildLabelDict_char]
    cases h1 : lastValOf (wfEntries parts1) k with
    | some v =>
        have hm : (k, v) ∈ wfEntries parts2 :=
          hpe.mem_iff.mp ((lastValOf_eq_iff_mem _ _ _ hnd).mp h1)
        rw [(lastValOf_eq_iff_mem _ _ _ hnd2).mpr hm]
    | none =>
        cases h2 : lastValOf (wfEntries parts2) k with
        | some v =>
            have hm : (k, v) ∈ wfEntries parts1 :=
              hpe.mem_iff.mpr ((lastValOf_eq_iff_mem _ _ _ hnd2).mp h2)
            rw [(lastValOf_eq_iff_mem _ _ _ hnd).mpr hm] at h1
            cases h1
        | none => rfl

/-- C8 (witness): the last-occurrence rule applied to the single
well-formed segment source=src1 appended to an empty list. -/
theorem c8_witness :
    alookup (buildLabelDict ([] ++ ["source=src1".data]))
        (trimChars ("source".data, "src1".data).1) =
      some (trimChars ("source".data, "src1".data).2) :=
  c8_label_parsing.2.2.2.1 [] "source=src1".data ("source".data, "src1".data)
    (by decide)

theorem ite_gt_eq_max (a b : ℚ) : (if b > a then b else a) = max a b := by
  by_cases h : b > a
  · rw [if_pos h, max_eq_right (le_of_lt h)]
  · rw [if_neg h, max_eq_left (le_of_not_lt h)]

theorem foldl_leafStep_char (ls : List Metrics) (a : StatAcc) :
    ls.foldl leafStep a =
      ⟨a.qSum + (ls.map (fun m => mgetD m "queue_ratio" 0)).sum,
       a.dSum + (ls.map (fun m => mgetD m "drop_ratio" 0)).sum,
       a.sSum + (ls.map (fun m => mgetD m "staleness_ratio" 0)).sum,
       a.fSum + (ls.map (fun m => mgetD m "starvation_flag" 0)).sum,
       (ls.map (fun m => mgetD m "queue_ratio" 0)).foldl max a.qMax,
       (ls.map (fun m => mgetD m "drop_ratio" 0)).foldl max a.dMax,
       (ls.map (fun m => mgetD m "staleness_ratio" 0)).foldl max a.sMax,
       a.count + ls.length⟩ := by
  induction ls generalizing a with
  | nil => simp
  | cons m ls ih =>
      rw [List.foldl_cons, ih]
      simp only [leafStep, List.map_cons, List.sum_cons, List.foldl_cons,
        List.length_cons, ite_gt_eq_max]
      simp only [StatAcc.mk.injEq]
      refine ⟨by ring, by ring, by ring, by ring, trivial, trivial, trivial, by omega⟩

theorem summarize_char (pods : AListQ (AListQ Metrics)) :
    summarize pods =
      [("avg_queue_ratio",
          if (leavesOf pods).length = 0 then 0
          else (leafVals "queue_ratio" pods).sum / (leavesOf pods).length),
       ("avg_drop_ratio",
          if (leavesOf pods).length = 0 then 0
          else (leafVals "drop_ratio" pods).sum / (leavesOf pods).length),
       ("avg_staleness_ratio",
          if (leavesOf pods).length = 0 then 0
          else (leafVals "staleness_ratio" pods).sum / (leavesOf pods).length),
       ("avg_starvation_flag",
          if (leavesOf pods).length = 0 then 0
          else (leafVals "starvation_flag" pods).sum / (leavesOf pods).length),
       ("max_queue_ratio", (leafVals "queue_ratio" pods).foldl max 0),
       ("max_drop_ratio", (leafVals "drop_ratio" pods).foldl max 0),
       ("max_staleness_ratio", (leafVals "staleness_ratio" pods).foldl max 0)] := by
  unfold summarize
  rw [foldl_leafStep_char]
  simp only [leafVals, statAcc0, zero_add, Nat.zero_add]

theorem foldl_summaries_not_mem (tree : ObsTree) (r0 : AListQ (AListQ ℚ))
    (c : String) (h : c ∉ tree.map Prod.fst) :
    alookup (tree.foldl (fun r cp => aset r cp.1 (summarize cp.2)) r0) c =
      alookup r0 c := by
  induction tree generalizing r0 with
  | nil => rfl
  | cons hd rest ih =>
      simp only [List.map_cons, List.mem_cons, not_or] at h
      rw [List.foldl_cons, ih _ h.2]
      exact alookup_aset_ne _ _ _ _ (fun hh => h.1 hh.symm)

theorem foldl_summaries_mem (tree : ObsTree) (r0 : AListQ (AListQ ℚ))
    (c : String) (pods : AListQ (AListQ Metrics))
    (hnd : (tree.map Prod.fst).Nodup) (hmem : (c, pods) ∈ tree) :
    alookup (tree.foldl (fun r cp => aset r cp.1 (summarize cp.2)) r0) c =
      some (summarize pods) := by
  induction tree generalizing r0 with
  | nil => cases hmem
  | cons hd rest ih =>
      simp only [List.map_cons, List.nodup_cons] at hnd
      rw [List.foldl_cons]
      rcases List.mem_cons.mp hmem with he | he
      · have hc : hd.1 = c := by rw [← he]
        have hno : c ∉ rest.map Prod.fst := by
          rw [← hc]
          exact hnd.1
        rw [foldl_summaries_not_mem rest _ c hno, hc]
        have hp : summarize hd.2 = summarize pods := by
          rw [← he]
        rw [← hp]
        exact alookup_aset_self _ _ _
      · exact ih _ hnd.2 he

theorem mem_aset {α : Type} (l : AListQ α) (k : String) (v : α) (x : String × α)
    (h : x ∈ aset l k v) : x ∈ l ∨ x = (k, v) := by
  induction l with
  | nil =>
      simp only [aset] at h
      rcases List.mem_singleton.mp h with h
      exact Or.inr h
  | cons hd rest ih =>
      by_cases hk : hd.1 = k
      · simp only [aset, if_pos hk] at h
        rcases List.mem_cons.mp h with h | h
        · exact Or.inr h
        · exact Or.inl (List.mem_cons_of_mem _ h)
      · simp only [aset, if_neg hk] at h
        rcases List.mem_cons.mp h with h | h
        · exact Or.inl (by rw [h]; exact List.mem_cons_self _ _)
        · rcases ih h with h | h
          · exact Or.inl (List.mem_cons_of_mem _ h)
          · exact Or.inr h

theorem extractClassMap_nodup_aux (m : AListQ ℚ) (acc : AListQ ℚ)
    (hacc : (akeys acc).Nodup) :
    (akeys (m.foldl
      (fun acc kv =>
        match classOfLabel kv.1 with
        | some c => aset acc c kv.2
        | none => acc) acc)).Nodup := by
  induction m generalizing acc with
  | nil => exact hacc
  | cons kv rest ih =>
      rw [List.foldl_cons]
      cases classOfLabel kv.1 with
      | some c => exact ih _ (akeys_aset_nodup _ _ _ hacc)
      | none => exact ih _ hacc

theorem metricClassMaps_values_nodup (extra : RawResult) (mc : String × AListQ ℚ)
    (h : mc ∈ metricClassMaps extra) : (akeys mc.2).Nodup := by
  unfold metricClassMaps at h
  have main : ∀ (l : RawResult) (acc : AListQ (AListQ ℚ)),
      (∀ x ∈ acc, (akeys x.2).Nodup) →
      ∀ x ∈ l.foldl
        (fun acc nv =>
          match nv.2 with
          | .labeled m => aset acc nv.1 (extractClassMap m)
          | .scalar _ => aset acc nv.1 []) acc, (akeys x.2).Nodup := by
    intro l
    induction l with
    | nil => intro acc hacc x hx; exact hacc x hx
    | cons nv rest ih =>
        intro acc hacc x hx
        rw [List.foldl_cons] at hx
        cases hnv : nv.2 with
        | labeled m =>
            rw [hnv] at hx
            refine ih _ ?_ x hx
            intro y hy
            rcases mem_aset _ _ _ _ hy with hy | hy
            · exact hacc y hy
            · rw [hy]
              exact extractClassMap_nodup_aux m [] (by simp [akeys])
        | scalar v =>
            rw [hnv] at hx
            refine ih _ ?_ x hx
            intro y hy
            rcases mem_aset _ _ _ _ hy with hy | hy
            · exact hacc y hy
            · rw [hy]
              simp [akeys]
  exact main extra [] (by intro x hx; cases hx) mc h

theorem mergeMap_lookup (res : AListQ (AListQ ℚ)) (mname : String)
    (cmap : AListQ ℚ) (c : String) (hnd : (akeys cmap).Nodup) :
    alookup (mergeMap res mname cmap) c =
      match alookup cmap c with
      | some v => some (aset (mgetD res c []) mname v)
      | none => alookup res c := by
  induction cmap generalizing res with
  | nil => rfl
  | cons kv rest ih =>
      simp only [akeys, List.map_cons, List.nodup_cons] at hnd
      show alookup (mergeMap (aset res kv.1 (aset (mgetD res kv.1 []) mname kv.2))
          mname rest) c = _
      rw [ih _ hnd.2]
      simp only [mgetD]
      by_cases hk : kv.1 = c
      · have hrest : alookup rest c = none := by
          apply alookup_eq_none_of_not_mem_akeys
          rw [← hk]
          simpa [akeys] using hnd.1
        have hres : alookup
            (aset res kv.1 (aset ((alookup res kv.1).getD []) mname kv.2)) c =
            some (aset ((alookup res kv.1).getD []) mname kv.2) := by
          rw [← hk]
          exact alookup_aset_self _ _ _
        have hcm : alookup (kv :: rest) c = some kv.2 := by
          show (if kv.1 = c then some kv.2 else alookup rest c) = some kv.2
          rw [if_pos hk]
        rw [hrest, hres, hcm, hk]
      · have hres : alookup
            (aset res kv.1 (aset ((alookup res kv.1).getD []) mname kv.2)) c =
            alookup res c := alookup_aset_ne _ _ _ _ hk
        have hcm : alookup (kv :: rest) c = alookup rest c := by
          show (if kv.1 = c then some kv.2 else alookup rest c) = alookup rest c
          rw [if_neg hk]
        rw [hcm, hres]

theorem mergeExtras_lookup (maps : AListQ (AListQ ℚ)) (res : AListQ (AListQ ℚ))
    (c : String) (hnd : ∀ mc ∈ maps, (akeys mc.2).Nodup) :
    alookup (mergeExtras res maps) c = mergeInto (alookup res c) maps c := by
  induction maps generalizing res with
  | nil => rfl
  | cons mc rest ih =>
      show alookup (mergeExtras (mergeMap res mc.1 mc.2) rest) c = _
      rw [ih _ (fun x hx => hnd x (List.mem_cons_of_mem _ hx))]
      show _ = mergeInto
        (match alookup mc.2 c with
         | some v => some (aset ((alookup res c).getD []) mc.1 v)
         | none => alookup res c) rest c
      rw [mergeMap_lookup _ _ _ _ (hnd mc (List.mem_cons_self _ _))]
      simp only [mgetD]

theorem mergeInto_some (maps : AListQ (AListQ ℚ)) (c : String) (e0 : AListQ ℚ) :
    mergeInto (some e0) maps c =
      some (maps.foldl
        (fun e mc =>
          match alookup mc.2 c with
          | some v => aset e mc.1 v
          | none => e) e0) := by
  induction maps generalizing e0 with
  | nil => rfl
  | cons mc rest ih =>
      cases halk : alookup mc.2 c with
      | some v =>
          have h1 : mergeInto (some e0) (mc :: rest) c =
              mergeInto (some (aset e0 mc.1 v)) rest c := by
            show mergeInto
              (match alookup mc.2 c with
               | some v => some (aset ((some e0).getD []) mc.1 v)
               | none => some e0) rest c = _
            rw [halk]
            try rfl
          have h2 : (mc :: rest).foldl
              (fun e mc =>
                match alookup mc.2 c with
                | some v => aset e mc.1 v
                | none => e) e0 =
              rest.foldl
                (fun e mc =>
                  match alookup mc.2 c with
                  | some v => aset e mc.1 v
                  | none => e) (aset e0 mc.1 v) := by
            rw [List.foldl_cons]
            simp only [halk]
          rw [h1, ih, h2]
      | none =>
          have h1 : mergeInto (some e0) (mc :: rest) c =
              mergeInto (some e0) rest c := by
            show mergeInto
              (match alookup mc.2 c with
               | some v => some (aset ((some e0).getD []) mc.1 v)
               | none => some e0) rest c = _
            rw [halk]
            try rfl
          have h2 : (mc :: rest).foldl
              (fun e mc =>
                match alookup mc.2 c with
                | some v => aset e mc.1 v
                | none => e) e0 =
              rest.foldl
                (fun e mc =>
                  match alookup mc.2 c with
                  | some v => aset e mc.1 v
                  | none => e) e0 := by
            rw [List.foldl_cons]
            simp only [halk]
          rw [h1, ih, h2]

theorem mergeInto_none_eq_mergedEntry (maps : AListQ (AListQ ℚ)) (c : String)
    (hne : mergedEntry maps c ≠ []) :
    mergeInto none maps c = some (mergedEntry maps c) := by
  induction maps with
  | nil => exact absurd rfl hne
  | cons mc rest ih =>
      cases halk : alookup mc.2 c with
      | some v =>
          have h1 : mergeInto none (mc :: rest) c =
              mergeInto (some (aset [] mc.1 v)) rest c := by
            show mergeInto
              (match alookup mc.2 c with
               | some v => some (aset ((none : Option (AListQ ℚ)).getD []) mc.1 v)
               | none => none) rest c = _
            rw [halk]
            try rfl
          have h2 : mergedEntry (mc :: rest) c =
              rest.foldl
                (fun e mc =>
                  match alookup mc.2 c with
                  | some v => aset e mc.1 v
                  | none => e) (aset [] mc.1 v) := by
            unfold mergedEntry
            rw [List.foldl_cons]
            simp only [halk]
          rw [h1, mergeInto_some, h2]
      | none =>
          have h2 : mergedEntry (mc :: rest) c = mergedEntry rest c := by
            unfold mergedEntry
            rw [List.foldl_cons]
            simp only [halk]
          have h1 : mergeInto none (mc :: rest) c = mergeInto none rest c := by
            show mergeInto
              (match alookup mc.2 c with
               | some v => some (aset ((none : Option (AListQ ℚ)).getD []) mc.1 v)
               | none => none) rest c = _
            rw [halk]
          rw [h1, h2]
          rw [h2] at hne
          exact ih hne

/-! ### Claim C9 -/

/-- C9 (counterexample): a class whose single leaf has staleness -1 gets
max_staleness_ratio = 0 from the aggregator (the running maximum starts
at 0.0), although the maximum of staleness over its leaves is -1 (the
avg field shows the leaf value), and no max_starvation_flag field exists
at all; so the summary does not hold the leaf maxima the claim states. -/
theorem c9_max_clamped_not_leaf_max :
    (∃ summ, alookup (aggregate_class_metrics t9 []) "gold" = some summ ∧
      alookup summ "avg_staleness_ratio" = some (-1) ∧
      alookup summ "max_staleness_ratio" = some 0 ∧
      alookup summ "max_starvation_flag" = none) ∧
      (0 : ℚ) ≠ -1 := by
  constructor
  · refine ⟨[("avg_queue_ratio", 0), ("avg_drop_ratio", 0),
      ("avg_staleness_ratio", -1), ("avg_starvation_flag", 0),
      ("max_queue_ratio", 0), ("max_drop_ratio", 0),
      ("max_staleness_ratio", 0)], ?_, ?_, ?_, ?_⟩
    · norm_num +decide [t9, aggregate_class_metrics, mergeExtras, mergeMap,
        metricClassMaps, summarize, leafStep, statAcc0, leavesOf, mgetD,
        alookup, aset]
    · norm_num +decide [alookup]
    · norm_num +decide [alookup]
    · norm_num +decide [alookup]
  · norm_num

theorem mergedOnto_lookup_no_collision (maps : AListQ (AListQ ℚ)) (c k : String)
    (e0 : AListQ ℚ) (h : ∀ mc ∈ maps, alookup mc.2 c = none ∨ mc.1 ≠ k) :
    alookup (mergedOnto e0 maps c) k = alookup e0 k := by
  induction maps generalizing e0 with
  | nil => rfl
  | cons mc rest ih =>
      cases halk : alookup mc.2 c with
      | some v =>
          have hk : mc.1 ≠ k := by
            rcases h mc (List.mem_cons_self _ _) with h1 | h1
            · rw [halk] at h1
              cases h1
            · exact h1
          have h1 : mergedOnto e0 (mc :: rest) c = mergedOnto (aset e0 mc.1 v) rest c := by
            unfold mergedOnto
            rw [List.foldl_cons]
            simp only [halk]
          rw [h1, ih (aset e0 mc.1 v) (fun x hx => h x (List.mem_cons_of_mem _ hx))]
          exact alookup_aset_ne _ _ _ _ hk
      | none =>
          have h1 : mergedOnto e0 (mc :: rest) c = mergedOnto e0 rest c := by
            unfold mergedOnto
            rw [List.foldl_cons]
            simp only [halk]
          rw [h1]
          exact ih e0 (fun x hx => h x (List.mem_cons_of_mem _ hx))

/-- C9 (amended): for every ObservationTree and every secondary
scalar-metric response, each class of the tree gets the entry obtained
by first building the per-class summary - the averages of queue_ratio,
drop_ratio, staleness_ratio and starvation_flag over its leaves (sum
divided by leaf count) and running maxima of queue_ratio, drop_ratio and
staleness_ratio clamped below at their 0.0 start (no maximum is produced
for starvation_flag) - and then merging the class's scalar metrics into
it field by field, a scalar metric overwriting a summary field of the
same name; every summary field whose name no merged metric of that class
shares keeps its stated value.  A class with zero leaves yields the
all-zero summary, and a class name appearing only in the secondary
response gets an entry holding exactly the merged scalar fields. -/
theorem c9_aggregation_amended :
    (∀ pods, summarize pods =
      [("avg_queue_ratio",
          if (leavesOf pods).length = 0 then 0
          else (leafVals "queue_ratio" pods).sum / (leavesOf pods).length),
       ("avg_drop_ratio",
          if (leavesOf pods).length = 0 then 0
          else (leafVals "drop_ratio" pods).sum / (leavesOf pods).length),
       ("avg_staleness_ratio",
          if (leavesOf pods).length = 0 then 0
          else (leafVals "staleness_ratio" pods).sum / (leavesOf pods).length),
       ("avg_starvation_flag",
          if (leavesOf pods).length = 0 then 0
          else (leafVals "starvation_flag" pods).sum / (leavesOf pods).length),
       ("max_queue_ratio", (leafVals "queue_ratio" pods).foldl max 0),
       ("max_drop_ratio", (leafVals "drop_ratio" pods).foldl max 0),
       ("max_staleness_ratio", (leafVals "staleness_ratio" pods).foldl max 0)]) ∧
      (∀ pods, leavesOf pods = [] → summarize pods = zeroSummary) ∧
      (∀ pods, alookup (summarize pods) "max_starvation_flag" = none) ∧
      (∀ (tree : ObsTree) (extra : RawResult) (c : String)
        (pods : AListQ (AListQ Metrics)),
        (tree.map Prod.fst).Nodup → (c, pods) ∈ tree →
        alookup (aggregate_class_metrics tree extra) c =
          some (mergedOnto (summarize pods) (metricClassMaps extra) c)) ∧
      (∀ (extra : RawResult) (c k : String) (e0 : AListQ ℚ),
        (∀ mc ∈ metricClassMaps extra, alookup mc.2 c = none ∨ mc.1 ≠ k) →
        alookup (mergedOnto e0 (metricClassMaps extra) c) k = alookup e0 k) ∧
      ∀ (tree : ObsTree) (extra : RawResult) (c : String),
        c ∉ tree.map Prod.fst → mergedEntry (metricClassMaps extra) c ≠ [] →
        alookup (aggregate_class_metrics tree extra) c =
          some (mergedEntry (metricClassMaps extra) c) := by
  refine ⟨summarize_char, ?_, ?_, ?_, ?_, ?_⟩
  · intro pods h
    rw [summarize_char]
    simp [leafVals, h, zeroSummary]
  · intro pods
    rw [summarize_char]
    simp +decide [alookup]
  · intro tree extra c pods hnd hmem
    show alookup (mergeExtras
      (tree.foldl (fun r cp => aset r cp.1 (summarize cp.2)) [])
      (metricClassMaps extra)) c = _
    rw [mergeExtras_lookup _ _ _ (metricClassMaps_values_nodup extra)]
    rw [foldl_summaries_mem tree [] c pods hnd hmem]
    rw [mergeInto_some]
    rfl
  · intro extra c k e0 h
    exact mergedOnto_lookup_no_collision _ _ _ _ h
  · intro tree extra c hnc hne
    show alookup (mergeExtras
      (tree.foldl (fun r cp => aset r cp.1 (summarize cp.2)) [])
      (metricClassMaps extra)) c = _
    rw [mergeExtras_lookup _ _ _ (metricClassMaps_values_nodup extra)]
    rw [foldl_summaries_not_mem tree [] c hnc]
    show mergeInto none (metricClassMaps extra) c = _
    exact mergeInto_none_eq_mergedEntry _ _ hne

/-- C9 (witness): the per-class rule applied to the one-class tree t9
with a nonempty secondary response carrying demand_rate for gold. -/
theorem c9_witness :
    alookup (aggregate_class_metrics t9
        [("demand_rate", .labeled [("class=gold", 7)])]) "gold" =
      some (mergedOnto (summarize [("p1", [("s1", [("staleness_ratio", -1)])])])
        (metricClassMaps [("demand_rate", .labeled [("class=gold", 7)])]) "gold") :=
  c9_aggregation_amended.2.2.2.1 t9
    [("demand_rate", .labeled [("class=gold", 7)])] "gold"
    [("p1", [("s1", [("staleness_ratio", -1)])])] (by decide)
    (List.mem_cons_self _ _)
